import Mathlib

/-!
Verification of the bridge dashboard core (apps/api) against its
natural-language specification.  The Python sources are shallowly embedded
as executable Lean definitions: pure functions become Lean functions,
stateful code (the in-memory cache) becomes explicit state passing, and
fallible code returns `Except`/`Option`.  External collaborators (the
BigQuery engine, the Redis server) enter as explicit parameters or are
modelled from the spec where noted.
-/

namespace Bridge

/-! ## String utilities shared by the guardrail validator and the compiler -/

/-- Substring test on character lists: does `hay` contain `pat` as a
contiguous substring?  Models Python's `pat in hay`. -/
def hasSub (pat : List Char) : List Char → Bool
  | [] => pat.isEmpty
  | c :: rest => pat.isPrefixOf (c :: rest) || hasSub pat rest

/-- Case fold to upper, character-wise.  Models Python's `str.upper()`
(ASCII range; the SQL keywords involved are ASCII). -/
def pyUpper (s : String) : List Char := s.toList.map Char.toUpper

/-! ## Guardrail Executor: `BigQueryClient.validate_query` / `execute_query`
(src/apps/api/src/integrations/bigquery_client.py) -/

/-- The blocked patterns, verbatim from `DANGEROUS_PATTERNS`
(bigquery_client.py lines 20-31).  Each pattern carries a trailing space. -/
def DANGEROUS_PATTERNS : List String :=
  ["DROP ", "DELETE ", "TRUNCATE ", "ALTER ", "CREATE ",
   "GRANT ", "REVOKE ", "INSERT ", "UPDATE ", "MERGE "]

/-- The `for pattern in DANGEROUS_PATTERNS` loop of `validate_query`:
returns the first pattern contained in the upper-cased SQL. -/
def firstDangerous (sqlUpper : List Char) : List String → Option String
  | [] => none
  | p :: ps =>
    if hasSub p.toList sqlUpper then some p else firstDangerous sqlUpper ps

/-- `BigQueryClient.validate_query` (bigquery_client.py lines 173-205).
Returns `(is_valid, error_message)`.  `allowed` models
`settings.bigquery_allowed_datasets`. -/
def validateQuery (allowed : List String) (sql : String) : Bool × Option String :=
  let sqlUpper := pyUpper sql
  match firstDangerous sqlUpper DANGEROUS_PATTERNS with
  | some p => (false, some ("Dangerous SQL pattern detected: " ++ p.trim))
  | none =>
    if allowed.isEmpty then
      (true, none)
    else
      let foundAllowed := allowed.any fun d =>
        hasSub (d ++ ".").toList sql.toList ||
        hasSub ("`" ++ d ++ ".").toList sql.toList
      if foundAllowed then (true, none)
      else (false, some ("Query must reference one of allowed datasets: " ++
        String.intercalate ", " allowed))

/-- `BigQueryClient.execute_query` (bigquery_client.py lines 207-291) up to
the engine round trip: validation happens first and raises `ValueError`
before any engine call; on success the engine outcome (a parameter, since
BigQuery itself is an external collaborator) is returned as-is. -/
def executeQuery {α : Type} (allowed : List String) (sql : String)
    (engine : Except String α) : Except String α :=
  match validateQuery allowed sql with
  | (true, _) => engine
  | (false, err) => .error (err.getD "")

/-! ### Lemmas about the dangerous-pattern loop -/

theorem firstDangerous_of_exists (u : List Char) :
    ∀ ps : List String, (∃ p ∈ ps, hasSub p.toList u = true) →
      ∃ p ∈ ps, firstDangerous u ps = some p := by
  intro ps
  induction ps with
  | nil => rintro ⟨p, hp, _⟩; cases hp
  | cons q qs ih =>
    rintro ⟨p, hp, hsub⟩
    by_cases hq : hasSub q.toList u = true
    · refine ⟨q, List.mem_cons_self _ _, ?_⟩
      unfold firstDangerous
      rw [if_pos hq]
    · rcases List.mem_cons.mp hp with rfl | hmem
      · exact absurd hsub hq
      · obtain ⟨r, hr, hfd⟩ := ih ⟨p, hmem, hsub⟩
        refine ⟨r, List.mem_cons_of_mem _ hr, ?_⟩
        unfold firstDangerous
        rw [if_neg hq, hfd]

/-- C2 (amended): for every SQL string that, after upper-casing, contains one
of the dangerous keywords *followed by a space* (the patterns `"DROP "`,
`"DELETE "`, ... of `DANGEROUS_PATTERNS`), `validate_query` rejects it with
a dangerous-SQL error message, and `execute_query` fails before consulting
the query engine (the result is the same for every engine outcome). -/
theorem c2_dangerous_rejected (sql : String) (allowed : List String)
    (h : ∃ p ∈ DANGEROUS_PATTERNS, hasSub p.toList (pyUpper sql) = true) :
    ∃ p ∈ DANGEROUS_PATTERNS,
      validateQuery allowed sql =
        (false, some ("Dangerous SQL pattern detected: " ++ p.trim)) ∧
      ∀ (α : Type) (engine : Except String α),
        executeQuery allowed sql engine =
          .error ("Dangerous SQL pattern detected: " ++ p.trim) := by
  obtain ⟨p, hp, hfd⟩ := firstDangerous_of_exists (pyUpper sql) DANGEROUS_PATTERNS h
  refine ⟨p, hp, ?_, ?_⟩
  · simp [validateQuery, hfd]
  · intro α engine
    simp [executeQuery, validateQuery, hfd]

/-- Witness for C2 (amended) at the spec's concrete scenario: SQL
`"DROP TABLE users"` is rejected with the dangerous-SQL error and the engine
is never consulted. -/
theorem c2_dangerous_rejected_witness :
    ∃ p ∈ DANGEROUS_PATTERNS,
      validateQuery [] "DROP TABLE users" =
        (false, some ("Dangerous SQL pattern detected: " ++ p.trim)) ∧
      ∀ (α : Type) (engine : Except String α),
        executeQuery [] "DROP TABLE users" engine =
          .error ("Dangerous SQL pattern detected: " ++ p.trim) :=
  c2_dangerous_rejected "DROP TABLE users" [] (by decide)

/-- C2 counterexample to the claim as stated: `"DROP\tTABLE users"`
case-insensitively contains the keyword `DROP`, yet `validate_query`
accepts it (the blocked pattern is `"DROP "` with a trailing *space*, and
here a tab follows the keyword) and the engine is consulted. -/
theorem c2_counterexample :
    hasSub "DROP".toList (pyUpper "DROP\tTABLE users") = true ∧
    validateQuery [] "DROP\tTABLE users" = (true, none) ∧
    ∀ engine : Except String Unit,
      executeQuery [] "DROP\tTABLE users" engine = engine := by
  refine ⟨by decide, by decide, ?_⟩
  intro engine
  have hv : validateQuery [] "DROP\tTABLE users" = (true, none) := by decide
  simp [executeQuery, hv]

/-! ## Query hash (`BigQueryClient.hash_query`, bigquery_client.py lines
975-988, and `DashboardCompilerService._hash_query`, dashboard_compiler.py
lines 329-342): `sha256(" ".join(sql.split()).lower())` -/

/-- The whitespace characters recognised by Python's `str.split()`
(ASCII subset; the claims involve ASCII SQL). -/
def isWs (c : Char) : Bool :=
  c == ' ' || c == '\t' || c == '\n' || c == '\r' ||
  c == Char.ofNat 11 || c == Char.ofNat 12

/-- Accumulator-style word scanner behind `pySplit`. -/
def pySplitAux : List Char → List Char → List (List Char)
  | acc, [] => if acc.isEmpty then [] else [acc.reverse]
  | acc, c :: rest =>
    if isWs c then
      if acc.isEmpty then pySplitAux [] rest
      else acc.reverse :: pySplitAux [] rest
    else pySplitAux (c :: acc) rest

/-- Python's `str.split()` with no argument: the maximal runs of
non-whitespace characters, in order; empty words never occur. -/
def pySplit (s : List Char) : List (List Char) := pySplitAux [] s

/-- Python's `" ".join(words)`. -/
def joinSpace : List (List Char) → List Char
  | [] => []
  | [w] => w
  | w :: ws => w ++ ' ' :: joinSpace ws

/-- Python's `str.lower()`, character-wise (ASCII range). -/
def lowerL (w : List Char) : List Char := w.map Char.toLower

/-- Modelled from the spec: `hashlib.sha256(normalized.encode()).hexdigest()`
(in the compiler truncated to its first 16 characters).  The spec calls the
query hash a "stable digest of whitespace-normalized, case-folded SQL" used
as a change-detection signal, so the digest (and its truncation) is modelled
as an injective encoding of its input — SHA-256 collisions are idealized
away. -/
def sha256Hex (input : List Char) : List Char := input

/-- `normalized = " ".join(sql.split()).lower()` — shared by
`BigQueryClient.hash_query` and `DashboardCompilerService._hash_query`. -/
def normalizeSql (sql : String) : List Char :=
  lowerL (joinSpace (pySplit sql.toList))

/-- The derived query hash of a SQL string. -/
def hashQuery (sql : String) : List Char := sha256Hex (normalizeSql sql)

/-- The token content of a SQL string: its whitespace-separated words,
case-folded.  Two SQL strings are "equal after whitespace normalization and
case folding" exactly when their token lists agree. -/
def sqlTokens (sql : String) : List (List Char) :=
  (pySplit sql.toList).map lowerL

/-! ### Facts about the split/join/fold pipeline -/

theorem toNat_ofNat_add32 (n : Nat) (h1 : 65 ≤ n) (h2 : n ≤ 90) :
    (Char.ofNat (n + 32)).toNat = n + 32 := by
  have hv : Nat.isValidChar (n + 32) := Or.inl (by omega)
  simp [Char.ofNat, hv, Char.ofNatAux, Char.toNat, UInt32.toNat,
    BitVec.toNat_ofNatLt]

theorem toLower_ne_space {c : Char} (h : isWs c = false) :
    Char.toLower c ≠ ' ' := by
  show (if c.toNat ≥ 65 ∧ c.toNat ≤ 90 then Char.ofNat (c.toNat + 32) else c) ≠ ' '
  split
  · rename_i hc
    intro heq
    have h32 := congrArg Char.toNat heq
    rw [toNat_ofNat_add32 c.toNat hc.1 hc.2] at h32
    have : Char.toNat ' ' = 32 := by decide
    omega
  · intro heq
    rw [heq] at h
    exact absurd h (by decide)

/-- Every word produced by the scanner is nonempty and whitespace-free. -/
theorem pySplitAux_good (s : List Char) :
    ∀ acc : List Char, (∀ c ∈ acc, isWs c = false) →
      ∀ w ∈ pySplitAux acc s, w ≠ [] ∧ ∀ c ∈ w, isWs c = false := by
  induction s with
  | nil =>
    intro acc hacc w hw
    unfold pySplitAux at hw
    split at hw
    · cases hw
    · rename_i hne
      rcases List.mem_singleton.mp hw with rfl
      refine ⟨?_, ?_⟩
      · intro h0
        rw [List.reverse_eq_nil_iff] at h0
        rw [h0] at hne
        exact hne rfl
      · intro c hc
        exact hacc c (List.mem_reverse.mp hc)
  | cons a rest ih =>
    intro acc hacc w hw
    unfold pySplitAux at hw
    by_cases hws : isWs a = true
    · rw [if_pos hws] at hw
      split at hw
      · exact ih [] (by intro c hc; cases hc) w hw
      · rename_i hne
        rcases List.mem_cons.mp hw with rfl | hmem
        · refine ⟨?_, ?_⟩
          · intro h0
            rw [List.reverse_eq_nil_iff] at h0
            rw [h0] at hne
            exact hne rfl
          · intro c hc
            exact hacc c (List.mem_reverse.mp hc)
        · exact ih [] (by intro c hc; cases hc) w hmem
    · rw [if_neg hws] at hw
      refine ih (a :: acc) ?_ w hw
      intro c hc
      rcases List.mem_cons.mp hc with rfl | hmem
      · exact eq_false_of_ne_true hws
      · exact hacc c hmem

theorem pySplit_good (s : List Char) :
    ∀ w ∈ pySplit s, w ≠ [] ∧ ∀ c ∈ w, isWs c = false :=
  pySplitAux_good s [] (by intro c hc; cases hc)

/-- `.lower()` commutes with `" ".join`. -/
theorem lowerL_joinSpace :
    ∀ ws : List (List Char), lowerL (joinSpace ws) = joinSpace (ws.map lowerL) := by
  intro ws
  induction ws with
  | nil => rfl
  | cons w ws ih =>
    cases ws with
    | nil => rfl
    | cons v vs =>
      show lowerL (w ++ ' ' :: joinSpace (v :: vs)) = _
      have hsp : Char.toLower ' ' = ' ' := by decide
      simp only [lowerL, List.map_append, List.map_cons, hsp] at *
      rw [ih]
      rfl

/-- A word is *good* when it is nonempty and contains no space. -/
def GoodWord (w : List Char) : Prop := w ≠ [] ∧ ∀ c ∈ w, c ≠ ' '

theorem append_space_inj {w1 w2 r1 r2 : List Char}
    (g1 : ∀ c ∈ w1, c ≠ ' ') (g2 : ∀ c ∈ w2, c ≠ ' ')
    (h : w1 ++ ' ' :: r1 = w2 ++ ' ' :: r2) : w1 = w2 ∧ r1 = r2 := by
  induction w1 generalizing w2 with
  | nil =>
    cases w2 with
    | nil =>
      simp only [List.nil_append, List.cons.injEq] at h
      exact ⟨rfl, h.2⟩
    | cons b bs =>
      simp only [List.nil_append, List.cons_append, List.cons.injEq] at h
      exact absurd h.1.symm (g2 b (List.mem_cons_self _ _))
  | cons a as ih =>
    cases w2 with
    | nil =>
      simp only [List.cons_append, List.nil_append, List.cons.injEq] at h
      exact absurd h.1 (g1 a (List.mem_cons_self _ _))
    | cons b bs =>
      simp only [List.cons_append, List.cons.injEq] at h
      obtain ⟨rfl, htail⟩ := h
      obtain ⟨hw, hr⟩ := ih (fun c hc => g1 c (List.mem_cons_of_mem _ hc))
        (fun c hc => g2 c (List.mem_cons_of_mem _ hc)) htail
      exact ⟨by rw [hw], hr⟩

/-- `" ".join` is injective on lists of good words. -/
theorem joinSpace_inj :
    ∀ ws1 ws2 : List (List Char), (∀ w ∈ ws1, GoodWord w) →
      (∀ w ∈ ws2, GoodWord w) → joinSpace ws1 = joinSpace ws2 → ws1 = ws2 := by
  intro ws1
  induction ws1 with
  | nil =>
    intro ws2 _ hg2 h
    cases ws2 with
    | nil => rfl
    | cons w ws =>
      exfalso
      have hw : GoodWord w := hg2 w (List.mem_cons_self _ _)
      cases ws with
      | nil => exact hw.1 (by simpa [joinSpace] using h.symm)
      | cons v vs =>
        have : ([] : List Char) = w ++ ' ' :: joinSpace (v :: vs) := h
        exact absurd this.symm (by simp [hw.1])
  | cons w1 ws1 ih =>
    intro ws2 hg1 hg2 h
    cases ws2 with
    | nil =>
      exfalso
      have hw : GoodWord w1 := hg1 w1 (List.mem_cons_self _ _)
      cases ws1 with
      | nil => exact hw.1 (by simpa [joinSpace] using h)
      | cons v vs =>
        have : w1 ++ ' ' :: joinSpace (v :: vs) = ([] : List Char) := h
        exact absurd this (by simp [hw.1])
    | cons w2 ws2 =>
      cases ws1 with
      | nil =>
        cases ws2 with
        | nil =>
          have : w1 = w2 := h
          rw [this]
        | cons v vs =>
          exfalso
          have : w1 = w2 ++ ' ' :: joinSpace (v :: vs) := h
          have hsp : (' ' : Char) ∈ w1 := by
            rw [this]
            exact List.mem_append_right _ (List.mem_cons_self _ _)
          exact (hg1 w1 (List.mem_cons_self _ _)).2 ' ' hsp rfl
      | cons u us =>
        cases ws2 with
        | nil =>
          exfalso
          have : w1 ++ ' ' :: joinSpace (u :: us) = w2 := h
          have hsp : (' ' : Char) ∈ w2 := by
            rw [← this]
            exact List.mem_append_right _ (List.mem_cons_self _ _)
          exact (hg2 w2 (List.mem_cons_self _ _)).2 ' ' hsp rfl
        | cons v vs =>
          have h' : w1 ++ ' ' :: joinSpace (u :: us) =
              w2 ++ ' ' :: joinSpace (v :: vs) := h
          obtain ⟨hw, hj⟩ := append_space_inj
            (fun c hc => (hg1 w1 (List.mem_cons_self _ _)).2 c hc)
            (fun c hc => (hg2 w2 (List.mem_cons_self _ _)).2 c hc) h'
          have := ih (v :: vs)
            (fun w hw' => hg1 w (List.mem_cons_of_mem _ hw'))
            (fun w hw' => hg2 w (List.mem_cons_of_mem _ hw')) hj
          rw [hw, this]

/-- Case-folded split words are good. -/
theorem sqlTokens_good (s : String) : ∀ w ∈ sqlTokens s, GoodWord w := by
  intro w hw
  obtain ⟨w', hw', rfl⟩ := List.mem_map.mp hw
  obtain ⟨hne, hws⟩ := pySplit_good s.toList w' hw'
  constructor
  · simpa [lowerL] using hne
  · intro c hc
    obtain ⟨c', hc', rfl⟩ := List.mem_map.mp hc
    exact toLower_ne_space (hws c' hc')

theorem hashQuery_eq_join_tokens (s : String) :
    hashQuery s = sha256Hex (joinSpace (sqlTokens s)) := by
  unfold hashQuery normalizeSql sqlTokens
  rw [lowerL_joinSpace]

/-- C6: the derived query hash is invariant under whitespace-only edits and
case changes, and differs whenever the token content differs: two SQL strings
hash alike exactly when their whitespace-separated, case-folded token lists
coincide (with the SHA-256 digest modelled as collision-free). -/
theorem c6_hash_iff_tokens (s1 s2 : String) :
    hashQuery s1 = hashQuery s2 ↔ sqlTokens s1 = sqlTokens s2 := by
  rw [hashQuery_eq_join_tokens, hashQuery_eq_join_tokens]
  constructor
  · intro h
    exact joinSpace_inj _ _ (sqlTokens_good s1) (sqlTokens_good s2) h
  · intro h
    rw [h]

/-! ## Dashboard definition data model
(src/apps/api/src/models/yaml_schema.py) -/

/-- `GridPosition` (yaml_schema.py lines 241-254): position on the fixed
12-column grid. -/
structure GridPosition where
  x : Nat
  y : Nat
  w : Nat
  h : Nat
deriving DecidableEq, Repr

/-- `Query` (yaml_schema.py lines 136-161): id, warehouse, raw SQL, optional
per-query byte-billing override. -/
structure Query where
  id : String
  warehouse : String
  sql : String
  maxBytesBilled : Option Nat
deriving DecidableEq, Repr

/-- `LayoutItem` (yaml_schema.py lines 257-284).  The chart configuration is
carried as its title (used by the lineage seeds) plus its serialized
`model_dump()` rendering (used by the execution plan), both opaque here. -/
structure LayoutItem where
  id : String
  type : String
  chartTitle : String
  chartConfig : String
  queryRef : String
  position : GridPosition
deriving DecidableEq, Repr

/-- `DashboardMetadata` (yaml_schema.py lines 84-128), restricted to the
fields the compiler reads. -/
structure DashboardMetadata where
  slug : String
  name : String
  owner : String
  viewType : String
deriving DecidableEq, Repr

/-- `DashboardYAML` (yaml_schema.py lines 292-342). -/
structure DashboardYAML where
  metadata : DashboardMetadata
  queries : List Query
  layout : List LayoutItem
deriving DecidableEq, Repr

/-! ## Dashboard-level validators (`DashboardYAML` model validators,
yaml_schema.py lines 299-342) -/

/-- `validate_query_refs`: every `query_ref` names an existing query id. -/
def validateQueryRefs (d : DashboardYAML) : Bool :=
  d.layout.all fun item => d.queries.any fun q => q.id == item.queryRef

/-- `validate_chart_ids_unique`: no chart id occurs twice. -/
def validateChartIdsUnique (d : DashboardYAML) : Bool :=
  (d.layout.map LayoutItem.id).all fun i => (d.layout.map LayoutItem.id).count i == 1

/-- `validate_query_ids_unique`: no query id occurs twice. -/
def validateQueryIdsUnique (d : DashboardYAML) : Bool :=
  (d.queries.map Query.id).all fun i => (d.queries.map Query.id).count i == 1

/-- The grid cells `(x, y)` covered by a position: `x .. x+w-1` crossed with
`y .. y+h-1`, in the loop order of `validate_grid_overlaps`. -/
def cellList (p : GridPosition) : List (Nat × Nat) :=
  (List.range' p.x p.w).flatMap fun cx => (List.range' p.y p.h).map fun cy => (cx, cy)

/-- The inner cell loop of `validate_grid_overlaps`: extend the `positions`
accumulator cell by cell, failing on the first cell already seen. -/
def addCells : List (Nat × Nat) → List (Nat × Nat) → Option (List (Nat × Nat))
  | seen, [] => some seen
  | seen, c :: cs => if c ∈ seen then none else addCells (seen ++ [c]) cs

/-- The item loop of `validate_grid_overlaps` (yaml_schema.py lines
329-342); `true` means no overlap was detected. -/
def checkOverlapsAux : List (Nat × Nat) → List LayoutItem → Bool
  | _, [] => true
  | seen, item :: rest =>
    match addCells seen (cellList item.position) with
    | none => false
    | some seen' => checkOverlapsAux seen' rest

/-- `validate_grid_overlaps`. -/
def validateGridOverlaps (d : DashboardYAML) : Bool :=
  checkOverlapsAux [] d.layout

/-- The model validators of `DashboardYAML`, in declaration order; pydantic
accepts the definition exactly when none of them raises. -/
def dashboardValid (d : DashboardYAML) : Bool :=
  validateQueryRefs d && validateChartIdsUnique d &&
  validateQueryIdsUnique d && validateGridOverlaps d

/-! ## Table-reference extraction
(`DashboardCompilerService._extract_table_references`, dashboard_compiler.py
lines 297-327): `re.findall` of the pattern
`` `?([a-zA-Z0-9_-]+\.[a-zA-Z0-9_-]+\.[a-zA-Z0-9_-]+)`? `` followed by
`list(set(matches))`. -/

/-- The character class `[a-zA-Z0-9_-]`. -/
def isIdentChar (c : Char) : Bool := c.isAlphanum || c == '_' || c == '-'

/-- One match attempt of the table pattern at the current position: an
optional backtick, three nonempty identifier runs separated by dots, an
optional closing backtick.  Returns the captured group and the rest of the
input after the match.  Because the identifier class excludes `.`, the
greedy `+` repetitions of the regex are exactly the maximal runs taken
here and no backtracking can produce a different match. -/
def matchTriple (s : List Char) : Option (List Char × List Char) :=
  let s1 := match s with | '`' :: t => t | _ => s
  let r1 := s1.takeWhile isIdentChar
  let t1 := s1.dropWhile isIdentChar
  if r1.isEmpty then none else
  match t1 with
  | '.' :: t2 =>
    let r2 := t2.takeWhile isIdentChar
    let t3 := t2.dropWhile isIdentChar
    if r2.isEmpty then none else
    match t3 with
    | '.' :: t4 =>
      let r3 := t4.takeWhile isIdentChar
      let t5 := t4.dropWhile isIdentChar
      if r3.isEmpty then none else
      let t6 := match t5 with | '`' :: t => t | _ => t5
      some (r1 ++ '.' :: r2 ++ '.' :: r3, t6)
    | _ => none
  | _ => none

/-- `re.findall` scan: try a match at each position, emit the captured
group and continue after the match, otherwise advance one character.  The
fuel starts at the input length; a successful match consumes at least one
character, so the fuel never runs out before the input does. -/
def scanTablesAux : Nat → List Char → List String
  | 0, _ => []
  | _ + 1, [] => []
  | fuel + 1, c :: rest =>
    match matchTriple (c :: rest) with
    | some (m, t) => String.mk m :: scanTablesAux fuel t
    | none => scanTablesAux fuel rest

/-- `list(set(matches))`: deduplication of the matches.  CPython's set
iteration order is a fixed function of the inserted strings within one
process; it is modelled as first-occurrence order. -/
def dedupMatches (l : List String) : List String := l.eraseDups

/-- `_extract_table_references`. -/
def extractTableReferences (sql : String) : List String :=
  dedupMatches (scanTablesAux sql.toList.length sql.toList)

/-! ## Compiler (`DashboardCompilerService`, dashboard_compiler.py) -/

/-- One entry of the execution plan's `queries` list
(dashboard_compiler.py lines 130-140). -/
structure PlanQuery where
  queryId : String
  queryHash : List Char
  warehouse : String
  sql : String
  maxBytesBilled : Option Nat
  dependentCharts : List String
  executionOrder : Nat
deriving DecidableEq, Repr

/-- One entry of the execution plan's `charts` list
(dashboard_compiler.py lines 144-158). -/
structure PlanChart where
  chartId : String
  chartType : String
  queryRef : String
  position : GridPosition
  config : String
deriving DecidableEq, Repr

/-- The execution plan (dashboard_compiler.py lines 160-168). -/
structure ExecutionPlan where
  dashboardSlug : String
  version : Nat
  queries : List PlanQuery
  charts : List PlanChart
  executionStrategy : String
  totalQueries : Nat
  totalCharts : Nat
deriving DecidableEq, Repr

/-- `DashboardCompilerService._build_execution_plan`
(dashboard_compiler.py lines 104-168). -/
def buildExecutionPlan (d : DashboardYAML) : ExecutionPlan :=
  let queries := d.queries.map fun q =>
    { queryId := q.id
      queryHash := hashQuery q.sql
      warehouse := q.warehouse
      sql := q.sql
      maxBytesBilled := q.maxBytesBilled
      dependentCharts :=
        (d.layout.filter fun item => item.queryRef == q.id).map LayoutItem.id
      executionOrder := 0 : PlanQuery }
  let charts := d.layout.map fun item =>
    { chartId := item.id
      chartType := item.type
      queryRef := item.queryRef
      position := item.position
      config := item.chartConfig : PlanChart }
  { dashboardSlug := d.metadata.slug
    version := 1
    queries := queries
    charts := charts
    executionStrategy := "parallel"
    totalQueries := queries.length
    totalCharts := charts.length }

/-- Lineage node types (`NodeType` in db_models). -/
inductive NodeType
  | dashboard
  | chart
  | query
  | table
deriving DecidableEq, Repr

/-- Lineage edge types (`EdgeType` in db_models). -/
inductive EdgeType
  | contains
  | executes
  | readsFrom
deriving DecidableEq, Repr

/-- A lineage node seed (the dicts built in `_build_lineage_seeds`). -/
structure NodeSeed where
  nodeType : NodeType
  nodeId : String
  meta : List (String × String)
deriving DecidableEq, Repr

/-- A lineage edge seed (the dicts built in `_build_lineage_seeds`). -/
structure EdgeSeed where
  sourceNodeId : String
  sourceNodeType : NodeType
  targetNodeId : String
  targetNodeType : NodeType
  edgeType : EdgeType
deriving DecidableEq, Repr

/-- Chart node id: `f"{slug}:chart:{item.id}"`. -/
def chartNodeId (slug itemId : String) : String := slug ++ ":chart:" ++ itemId

/-- Query node id: `f"{slug}:query:{query.id}"`. -/
def queryNodeId (slug queryId : String) : String := slug ++ ":query:" ++ queryId

/-- The `executes` edge emitted for a layout item referencing a query,
expressed through the item's own `query_ref`. -/
def execEdge (slug : String) (item : LayoutItem) : EdgeSeed :=
  ⟨chartNodeId slug item.id, .chart, queryNodeId slug item.queryRef, .query, .executes⟩

/-- The dashboard node seed (dashboard_compiler.py lines 199-209). -/
def dashNodeSeed (d : DashboardYAML) : NodeSeed :=
  ⟨.dashboard, d.metadata.slug,
   [("name", d.metadata.name), ("owner", d.metadata.owner),
    ("view_type", d.metadata.viewType)]⟩

/-- Chart node seed for a layout item (dashboard_compiler.py lines 212-225). -/
def chartNodeSeed (slug : String) (item : LayoutItem) : NodeSeed :=
  ⟨.chart, chartNodeId slug item.id,
   [("chart_type", item.type), ("title", item.chartTitle),
    ("dashboard_slug", slug)]⟩

/-- `contains` edge seed for a layout item (dashboard_compiler.py lines
227-236). -/
def containsEdgeSeed (slug : String) (item : LayoutItem) : EdgeSeed :=
  ⟨slug, .dashboard, chartNodeId slug item.id, .chart, .contains⟩

/-- Query node seed (dashboard_compiler.py lines 239-253). -/
def queryNodeSeed (slug : String) (q : Query) : NodeSeed :=
  ⟨.query, queryNodeId slug q.id,
   [("warehouse", q.warehouse),
    ("query_hash", String.mk (hashQuery q.sql)),
    ("sql_preview", String.mk (q.sql.toList.take 200)),
    ("dashboard_slug", slug)]⟩

/-- Table node seed (dashboard_compiler.py lines 272-282). -/
def tableNodeSeed (t : String) : NodeSeed :=
  ⟨.table, t, [("table_name", t)]⟩

/-- The node seeds a single query contributes: its query node followed by
one table node per extracted table reference (dashboard_compiler.py lines
239-282). -/
def queryBlockNodes (slug : String) (q : Query) : List NodeSeed :=
  queryNodeSeed slug q ::
    (extractTableReferences q.sql).map tableNodeSeed

/-- The edge seeds a single query contributes: one `executes` edge per
layout item referencing it, then one `reads_from` edge per extracted table
reference (dashboard_compiler.py lines 255-293). -/
def queryBlockEdges (slug : String) (layout : List LayoutItem) (q : Query) :
    List EdgeSeed :=
  ((layout.filter fun item => item.queryRef == q.id).map fun item =>
    (⟨chartNodeId slug item.id, .chart, queryNodeId slug q.id, .query,
      .executes⟩ : EdgeSeed)) ++
  (extractTableReferences q.sql).map fun t =>
    (⟨queryNodeId slug q.id, .query, t, .table, .readsFrom⟩ : EdgeSeed)

/-- `DashboardCompilerService._build_lineage_seeds`
(dashboard_compiler.py lines 170-295): one dashboard node; per layout item
a chart node and a `contains` edge; per query a query node, one `executes`
edge per referencing layout item, and per extracted table reference a table
node and a `reads_from` edge — in the loops' emission order. -/
def buildLineageSeeds (d : DashboardYAML) : List NodeSeed × List EdgeSeed :=
  let slug := d.metadata.slug
  (dashNodeSeed d :: d.layout.map (chartNodeSeed slug) ++
     (d.queries.map (queryBlockNodes slug)).flatten,
   d.layout.map (containsEdgeSeed slug) ++
     (d.queries.map (queryBlockEdges slug d.layout)).flatten)

/-- `CompilationResult` (yaml_schema.py lines 367-375); `compiledAt` models
the `datetime.utcnow()` timestamp taken during compilation. -/
structure CompilationResult where
  dashboardSlug : String
  executionPlan : ExecutionPlan
  queryCount : Nat
  lineageNodes : List NodeSeed
  lineageEdges : List EdgeSeed
  compiledAt : Nat
deriving DecidableEq, Repr

/-- `DashboardCompilerService.compile_dashboard`
(dashboard_compiler.py lines 43-102); the ambient clock enters only through
`compiled_at`. -/
def compileDashboard (d : DashboardYAML) (now : Nat) : CompilationResult :=
  let plan := buildExecutionPlan d
  let seeds := buildLineageSeeds d
  { dashboardSlug := d.metadata.slug
    executionPlan := plan
    queryCount := d.queries.length
    lineageNodes := seeds.1
    lineageEdges := seeds.2
    compiledAt := now }

/-- A rendering of the execution plan to bytes (its canonical `Repr` text);
"byte-identical plans" compares these strings. -/
def planBytes (p : ExecutionPlan) : String := toString (repr p)

/-- C3: compilation is deterministic — the execution plan (as bytes) and the
lineage node and edge lists of two compilations of the same definition are
identical, whatever the two runs' clock readings; the timestamp influences
only the `compiled_at` field, and the compiler performs no I/O. -/
theorem c3_compile_deterministic (d : DashboardYAML) (t1 t2 : Nat) :
    planBytes (compileDashboard d t1).executionPlan =
      planBytes (compileDashboard d t2).executionPlan ∧
    (compileDashboard d t1).lineageNodes = (compileDashboard d t2).lineageNodes ∧
    (compileDashboard d t1).lineageEdges = (compileDashboard d t2).lineageEdges :=
  ⟨rfl, rfl, rfl⟩

/-! ### Grid-overlap validation (C7) -/

theorem addCells_some {cs : List (Nat × Nat)} :
    ∀ {seen out : List (Nat × Nat)}, addCells seen cs = some out →
      out = seen ++ cs ∧ ∀ x ∈ cs, x ∉ seen := by
  induction cs with
  | nil =>
    intro seen out h
    have : seen = out := by simpa [addCells] using h
    refine ⟨by simp [this.symm], ?_⟩
    intro x hx
    cases hx
  | cons c cs ih =>
    intro seen out h
    unfold addCells at h
    split at h
    · cases h
    · rename_i hnotin
      obtain ⟨ho, hall⟩ := ih h
      constructor
      · rw [ho]
        simp
      · intro x hx
        rcases List.mem_cons.mp hx with rfl | hmem
        · exact hnotin
        · intro hxseen
          exact hall x hmem (List.mem_append_left _ hxseen)

theorem checkOverlapsAux_disjoint_seen :
    ∀ (items : List LayoutItem) (seen : List (Nat × Nat)),
      checkOverlapsAux seen items = true →
      ∀ item ∈ items, ∀ c ∈ cellList item.position, c ∉ seen := by
  intro items
  induction items with
  | nil =>
    intro seen _ item h
    cases h
  | cons it rest ih =>
    intro seen h item hmem c hc
    unfold checkOverlapsAux at h
    cases haddc : addCells seen (cellList it.position) with
    | none =>
      rw [haddc] at h
      cases h
    | some seenOut =>
      rw [haddc] at h
      obtain ⟨hout, hdisj⟩ := addCells_some haddc
      rcases List.mem_cons.mp hmem with rfl | hmem'
      · exact hdisj c hc
      · intro hcseen
        exact ih seenOut h item hmem' c hc
          (hout ▸ List.mem_append_left _ hcseen)

theorem checkOverlapsAux_pairwise :
    ∀ (items : List LayoutItem) (seen : List (Nat × Nat)),
      checkOverlapsAux seen items = true →
      items.Pairwise
        (fun a b => ∀ c ∈ cellList a.position, c ∉ cellList b.position) := by
  intro items
  induction items with
  | nil =>
    intro seen _
    exact List.Pairwise.nil
  | cons it rest ih =>
    intro seen h
    unfold checkOverlapsAux at h
    cases haddc : addCells seen (cellList it.position) with
    | none =>
      rw [haddc] at h
      cases h
    | some seenOut =>
      rw [haddc] at h
      obtain ⟨hout, _⟩ := addCells_some haddc
      constructor
      · intro b hb c hc hcb
        exact checkOverlapsAux_disjoint_seen rest seenOut h b hb c hcb
          (hout ▸ List.mem_append_right _ hc)
      · exact ih seenOut h

/-- C7: whenever two distinct layout items' grid rectangles share a cell,
`validate_grid_overlaps` detects the conflict and the definition is
rejected, regardless of the order in which the two items are declared (the
indices `i` and `j` are arbitrary). -/
theorem c7_overlap_rejected (d : DashboardYAML) (i j : Nat)
    (hi : i < d.layout.length) (hj : j < d.layout.length) (hne : i ≠ j)
    (hshare : ∃ c, c ∈ cellList (d.layout.get ⟨i, hi⟩).position ∧
                   c ∈ cellList (d.layout.get ⟨j, hj⟩).position) :
    validateGridOverlaps d = false ∧ dashboardValid d = false := by
  have key : validateGridOverlaps d = false := by
    cases hvg : validateGridOverlaps d with
    | false => rfl
    | true =>
      exfalso
      have hp := checkOverlapsAux_pairwise d.layout [] hvg
      rw [List.pairwise_iff_get] at hp
      obtain ⟨c, hci, hcj⟩ := hshare
      rcases Nat.lt_or_ge i j with hij | hij
      · exact hp ⟨i, hi⟩ ⟨j, hj⟩ hij c hci hcj
      · have hji : j < i := Nat.lt_of_le_of_ne hij (Ne.symm hne)
        exact hp ⟨j, hj⟩ ⟨i, hi⟩ hji c hcj hci
  exact ⟨key, by simp [dashboardValid, key]⟩

/-- Concrete two-item layout for the C7 witness: one chart at `x=4, w=6`,
another at `x=0, w=6`, on overlapping rows. -/
def overlapDemoDash : DashboardYAML :=
  { metadata := ⟨"demo-dash", "Demo", "owner@example.com", "analytical"⟩
    queries := [⟨"q1", "bigquery", "SELECT 1 FROM a.b.c", none⟩]
    layout :=
      [⟨"chart_a", "bar_chart", "A", "\x7b\x7d", "q1", ⟨4, 0, 6, 2⟩⟩,
       ⟨"chart_b", "bar_chart", "B", "\x7b\x7d", "q1", ⟨0, 0, 6, 2⟩⟩] }

/-- Witness for C7 at the spec's concrete scenario: items at `x=4,w=6` and
`x=0,w=6` conflict (shared cell at column 4) and the definition is
rejected. -/
theorem c7_overlap_rejected_witness :
    validateGridOverlaps overlapDemoDash = false ∧
    dashboardValid overlapDemoDash = false :=
  c7_overlap_rejected overlapDemoDash 0 1 (by decide) (by decide) (by decide)
    ⟨(4, 0), by decide, by decide⟩

/-! ### Lineage seed counts (C4) -/

/-- Node-type test on a node seed. -/
def isNodeType (t : NodeType) (n : NodeSeed) : Bool := n.nodeType == t

/-- Edge-type test on an edge seed. -/
def isEdgeType (t : EdgeType) (e : EdgeSeed) : Bool := e.edgeType == t

theorem sum_map_one {α : Type} (l : List α) :
    (l.map fun _ => (1 : Nat)).sum = l.length := by
  induction l with
  | nil => rfl
  | cons a l ih => simp [ih]; omega

theorem count_nodes_dashboard (d : DashboardYAML) :
    ((buildLineageSeeds d).1).countP (isNodeType .dashboard) = 1 := by
  unfold buildLineageSeeds
  simp only [List.countP_cons, List.countP_append, List.countP_flatten,
    List.map_map]
  have h1 : (d.layout.map (chartNodeSeed d.metadata.slug)).countP
      (isNodeType .dashboard) = 0 := by
    refine List.countP_eq_zero.mpr ?_
    intro a ha
    obtain ⟨item, _, rfl⟩ := List.mem_map.mp ha
    simp [isNodeType, chartNodeSeed]
  have h2 : ((d.queries.map
      (List.countP (isNodeType .dashboard) ∘ queryBlockNodes d.metadata.slug))).sum = 0 := by
    refine List.sum_eq_zero ?_
    intro x hx
    obtain ⟨q, _, rfl⟩ := List.mem_map.mp hx
    show (queryBlockNodes d.metadata.slug q).countP (isNodeType .dashboard) = 0
    refine List.countP_eq_zero.mpr ?_
    intro a ha
    unfold queryBlockNodes at ha
    rcases List.mem_cons.mp ha with rfl | hmem
    · simp [isNodeType, queryNodeSeed]
    · obtain ⟨t, _, rfl⟩ := List.mem_map.mp hmem
      simp [isNodeType, tableNodeSeed]
  rw [h1, h2]
  simp [isNodeType, dashNodeSeed]

theorem count_nodes_chart (d : DashboardYAML) :
    ((buildLineageSeeds d).1).countP (isNodeType .chart) = d.layout.length := by
  unfold buildLineageSeeds
  simp only [List.countP_cons, List.countP_append, List.countP_flatten,
    List.map_map]
  have h1 : (d.layout.map (chartNodeSeed d.metadata.slug)).countP
      (isNodeType .chart) = d.layout.length := by
    rw [← List.length_map d.layout (chartNodeSeed d.metadata.slug)]
    refine List.countP_eq_length.mpr ?_
    intro a ha
    obtain ⟨item, _, rfl⟩ := List.mem_map.mp ha
    simp [isNodeType, chartNodeSeed]
  have h2 : ((d.queries.map
      (List.countP (isNodeType .chart) ∘ queryBlockNodes d.metadata.slug))).sum = 0 := by
    refine List.sum_eq_zero ?_
    intro x hx
    obtain ⟨q, _, rfl⟩ := List.mem_map.mp hx
    show (queryBlockNodes d.metadata.slug q).countP (isNodeType .chart) = 0
    refine List.countP_eq_zero.mpr ?_
    intro a ha
    unfold queryBlockNodes at ha
    rcases List.mem_cons.mp ha with rfl | hmem
    · simp [isNodeType, queryNodeSeed]
    · obtain ⟨t, _, rfl⟩ := List.mem_map.mp hmem
      simp [isNodeType, tableNodeSeed]
  rw [h1, h2]
  simp [isNodeType, dashNodeSeed]

theorem count_nodes_query (d : DashboardYAML) :
    ((buildLineageSeeds d).1).countP (isNodeType .query) = d.queries.length := by
  unfold buildLineageSeeds
  simp only [List.countP_cons, List.countP_append, List.countP_flatten,
    List.map_map]
  have h1 : (d.layout.map (chartNodeSeed d.metadata.slug)).countP
      (isNodeType .query) = 0 := by
    refine List.countP_eq_zero.mpr ?_
    intro a ha
    obtain ⟨item, _, rfl⟩ := List.mem_map.mp ha
    simp [isNodeType, chartNodeSeed]
  have h2 : ((d.queries.map
      (List.countP (isNodeType .query) ∘ queryBlockNodes d.metadata.slug))).sum =
      d.queries.length := by
    have heach : ∀ q ∈ d.queries,
        (List.countP (isNodeType .query) ∘ queryBlockNodes d.metadata.slug) q = 1 := by
      intro q _
      show (queryBlockNodes d.metadata.slug q).countP (isNodeType .query) = 1
      unfold queryBlockNodes
      rw [List.countP_cons]
      have hz : ((extractTableReferences q.sql).map tableNodeSeed).countP
          (isNodeType .query) = 0 := by
        refine List.countP_eq_zero.mpr ?_
        intro a ha
        obtain ⟨t, _, rfl⟩ := List.mem_map.mp ha
        simp [isNodeType, tableNodeSeed]
      rw [hz]
      simp [isNodeType, queryNodeSeed]
    rw [List.map_congr_left heach, sum_map_one]
  rw [h1, h2]
  simp [isNodeType, dashNodeSeed]

theorem count_edges_contains (d : DashboardYAML) :
    ((buildLineageSeeds d).2).countP (isEdgeType .contains) = d.layout.length := by
  unfold buildLineageSeeds
  simp only [List.countP_append, List.countP_flatten, List.map_map]
  have h1 : (d.layout.map (containsEdgeSeed d.metadata.slug)).countP
      (isEdgeType .contains) = d.layout.length := by
    rw [← List.length_map d.layout (containsEdgeSeed d.metadata.slug)]
    refine List.countP_eq_length.mpr ?_
    intro a ha
    obtain ⟨item, _, rfl⟩ := List.mem_map.mp ha
    simp [isEdgeType, containsEdgeSeed]
  have h2 : ((d.queries.map
      (List.countP (isEdgeType .contains) ∘ queryBlockEdges d.metadata.slug d.layout))).sum
      = 0 := by
    refine List.sum_eq_zero ?_
    intro x hx
    obtain ⟨q, _, rfl⟩ := List.mem_map.mp hx
    show (queryBlockEdges d.metadata.slug d.layout q).countP (isEdgeType .contains) = 0
    refine List.countP_eq_zero.mpr ?_
    intro a ha
    unfold queryBlockEdges at ha
    rcases List.mem_append.mp ha with hmem | hmem
    · obtain ⟨item, _, rfl⟩ := List.mem_map.mp hmem
      simp [isEdgeType]
    · obtain ⟨t, _, rfl⟩ := List.mem_map.mp hmem
      simp [isEdgeType]
  rw [h1, h2]
  omega

/-- The `executes` edges among the seeds are exactly the per-query blocks'
filtered layout maps. -/
theorem edges_filter_executes (d : DashboardYAML) :
    ((buildLineageSeeds d).2).filter (isEdgeType .executes) =
      ((d.queries.map fun q =>
        (d.layout.filter fun item => item.queryRef == q.id).map
          (execEdge d.metadata.slug))).flatten := by
  unfold buildLineageSeeds
  simp only [List.filter_append, List.filter_flatten, List.map_map]
  have h1 : (d.layout.map (containsEdgeSeed d.metadata.slug)).filter
      (isEdgeType .executes) = [] := by
    refine List.filter_eq_nil_iff.mpr ?_
    intro a ha
    obtain ⟨item, _, rfl⟩ := List.mem_map.mp ha
    simp [isEdgeType, containsEdgeSeed]
  have hblock : ∀ q ∈ d.queries,
      (List.filter (isEdgeType .executes) ∘ queryBlockEdges d.metadata.slug d.layout) q =
      (d.layout.filter fun item => item.queryRef == q.id).map
        (execEdge d.metadata.slug) := by
    intro q _
    show (queryBlockEdges d.metadata.slug d.layout q).filter (isEdgeType .executes) = _
    unfold queryBlockEdges
    rw [List.filter_append]
    have ha : ((d.layout.filter fun item => item.queryRef == q.id).map fun item =>
        (⟨chartNodeId d.metadata.slug item.id, .chart,
          queryNodeId d.metadata.slug q.id, .query, .executes⟩ : EdgeSeed)).filter
        (isEdgeType .executes) =
        (d.layout.filter fun item => item.queryRef == q.id).map fun item =>
        (⟨chartNodeId d.metadata.slug item.id, .chart,
          queryNodeId d.metadata.slug q.id, .query, .executes⟩ : EdgeSeed) := by
      refine List.filter_eq_self.mpr ?_
      intro a ha
      obtain ⟨item, _, rfl⟩ := List.mem_map.mp ha
      simp [isEdgeType]
    have hb : (((extractTableReferences q.sql).map fun t =>
        (⟨queryNodeId d.metadata.slug q.id, .query, t, .table,
          .readsFrom⟩ : EdgeSeed))).filter (isEdgeType .executes) = [] := by
      refine List.filter_eq_nil_iff.mpr ?_
      intro a ha
      obtain ⟨t, _, rfl⟩ := List.mem_map.mp ha
      simp [isEdgeType]
    rw [ha, hb, List.append_nil]
    refine List.map_congr_left ?_
    intro item hitem
    have hq : item.queryRef = q.id := by
      simpa using (List.mem_filter.mp hitem).2
    simp [execEdge, hq]
  rw [h1, List.map_congr_left hblock]
  rfl

/-- Permuting the per-query `executes` blocks recovers one edge per layout
item, provided query ids are unique and every reference resolves. -/
theorem exec_blocks_perm (slug : String) :
    ∀ (qs : List Query) (items : List LayoutItem),
      (qs.map Query.id).Nodup →
      (∀ item ∈ items, ∃ q ∈ qs, q.id = item.queryRef) →
      (((qs.map fun q =>
          (items.filter fun item => item.queryRef == q.id).map
            (execEdge slug))).flatten).Perm (items.map (execEdge slug)) := by
  intro qs
  induction qs with
  | nil =>
    intro items _ href
    cases items with
    | nil => simp
    | cons it rest =>
      obtain ⟨q, hq, _⟩ := href it (List.mem_cons_self _ _)
      cases hq
  | cons q qs ih =>
    intro items hnodup href
    simp only [List.map_cons, List.flatten_cons]
    have hqid : q.id ∉ qs.map Query.id := by
      simp only [List.map_cons, List.nodup_cons] at hnodup
      exact hnodup.1
    have hrest : ∀ q' ∈ qs,
        (items.filter fun item => item.queryRef == q'.id).map (execEdge slug) =
        ((items.filter fun item => !(item.queryRef == q.id)).filter
          (fun item => item.queryRef == q'.id)).map (execEdge slug) := by
      intro q' hq'
      rw [List.filter_filter]
      congr 1
      refine List.filter_congr ?_
      intro a _
      cases hcase : (a.queryRef == q'.id) with
      | false => rfl
      | true =>
        have haref : a.queryRef = q'.id := by simpa using hcase
        have hne : q'.id ≠ q.id := by
          intro hcontra
          exact hqid (hcontra ▸ List.mem_map_of_mem Query.id hq')
        have : (a.queryRef == q.id) = false := by
          rw [haref]
          exact beq_eq_false_iff_ne.mpr hne
        simp [this]
    have hih := ih (items.filter fun item => !(item.queryRef == q.id))
      (by simp only [List.map_cons, List.nodup_cons] at hnodup; exact hnodup.2)
      (by
        intro item hitem
        obtain ⟨hmem, hcond⟩ := List.mem_filter.mp hitem
        obtain ⟨q0, hq0, heq⟩ := href item hmem
        rcases List.mem_cons.mp hq0 with rfl | hq0s
        · exfalso
          have : (item.queryRef == q0.id) = false := by simpa using hcond
          rw [heq] at this
          simp at this
        · exact ⟨q0, hq0s, heq⟩)
    have hstep1 :
        ((qs.map fun q' =>
          (items.filter fun item => item.queryRef == q'.id).map
            (execEdge slug))).flatten =
        ((qs.map fun q' =>
          ((items.filter fun item => !(item.queryRef == q.id)).filter
            (fun item => item.queryRef == q'.id)).map
            (execEdge slug))).flatten := by
      congr 1
      exact List.map_congr_left hrest
    rw [hstep1]
    have hperm1 := List.Perm.append_left
      ((items.filter fun item => item.queryRef == q.id).map (execEdge slug)) hih
    refine hperm1.trans ?_
    rw [← List.map_append]
    exact (List.filter_append_perm _ items).map (execEdge slug)

theorem chartNodeId_injective (slug : String) :
    Function.Injective (fun s : String => chartNodeId slug s) := by
  intro a b hab
  have hd : (chartNodeId slug a).data = (chartNodeId slug b).data :=
    congrArg String.data hab
  simp only [chartNodeId, String.data_append] at hd
  exact String.ext (List.append_cancel_left hd)

/-- With unique chart ids, the expected `executes` edges are pairwise
distinct. -/
theorem execEdge_map_nodup (slug : String) (items : List LayoutItem)
    (h : (items.map LayoutItem.id).Nodup) :
    (items.map (execEdge slug)).Nodup := by
  refine List.Nodup.of_map EdgeSeed.sourceNodeId ?_
  have hmap : (items.map (execEdge slug)).map EdgeSeed.sourceNodeId =
      (items.map LayoutItem.id).map (fun s => chartNodeId slug s) := by
    simp [execEdge, Function.comp_def]
  rw [hmap]
  exact h.map (chartNodeId_injective slug)

/-! ### From the boolean validators to their logical content -/

theorem validateQueryRefs_spec {d : DashboardYAML}
    (h : validateQueryRefs d = true) :
    ∀ item ∈ d.layout, ∃ q ∈ d.queries, q.id = item.queryRef := by
  intro item hitem
  unfold validateQueryRefs at h
  rw [List.all_eq_true] at h
  have hany := h item hitem
  rw [List.any_eq_true] at hany
  obtain ⟨q, hq, hbeq⟩ := hany
  exact ⟨q, hq, by simpa using hbeq⟩

theorem validateQueryIdsUnique_spec {d : DashboardYAML}
    (h : validateQueryIdsUnique d = true) :
    (d.queries.map Query.id).Nodup := by
  unfold validateQueryIdsUnique at h
  rw [List.all_eq_true] at h
  rw [List.nodup_iff_count_le_one]
  intro a
  by_cases hmem : a ∈ d.queries.map Query.id
  · have hcnt := h a hmem
    have : (d.queries.map Query.id).count a = 1 := by simpa using hcnt
    omega
  · rw [List.count_eq_zero.mpr hmem]
    omega

theorem validateChartIdsUnique_spec {d : DashboardYAML}
    (h : validateChartIdsUnique d = true) :
    (d.layout.map LayoutItem.id).Nodup := by
  unfold validateChartIdsUnique at h
  rw [List.all_eq_true] at h
  rw [List.nodup_iff_count_le_one]
  intro a
  by_cases hmem : a ∈ d.layout.map LayoutItem.id
  · have hcnt := h a hmem
    have : (d.layout.map LayoutItem.id).count a = 1 := by simpa using hcnt
    omega
  · rw [List.count_eq_zero.mpr hmem]
    omega

/-- C4: for a validated definition with `N` queries and `M` layout items,
the compiler's lineage seeds hold exactly one dashboard node, `M` chart
nodes and `N` query nodes (table nodes unconstrained), exactly `M`
`contains` edges, and the `executes` edges are — up to emission order —
exactly one edge per layout item from its chart node to the node of the
query it references; in particular each such (chart, query) edge occurs
exactly once. -/
theorem c4_lineage_counts (d : DashboardYAML)
    (hvalid : dashboardValid d = true) :
    ((buildLineageSeeds d).1).countP (isNodeType .dashboard) = 1 ∧
    ((buildLineageSeeds d).1).countP (isNodeType .chart) = d.layout.length ∧
    ((buildLineageSeeds d).1).countP (isNodeType .query) = d.queries.length ∧
    ((buildLineageSeeds d).2).countP (isEdgeType .contains) = d.layout.length ∧
    (((buildLineageSeeds d).2).filter (isEdgeType .executes)).Perm
      (d.layout.map (execEdge d.metadata.slug)) ∧
    ∀ item ∈ d.layout,
      (((buildLineageSeeds d).2).filter (isEdgeType .executes)).count
        (execEdge d.metadata.slug item) = 1 := by
  have hv : validateQueryRefs d = true ∧ validateChartIdsUnique d = true ∧
      validateQueryIdsUnique d = true ∧ validateGridOverlaps d = true := by
    simpa [dashboardValid, Bool.and_eq_true, and_assoc] using hvalid
  obtain ⟨h1, h2, h3, _⟩ := hv
  have hperm : (((buildLineageSeeds d).2).filter (isEdgeType .executes)).Perm
      (d.layout.map (execEdge d.metadata.slug)) := by
    rw [edges_filter_executes]
    exact exec_blocks_perm d.metadata.slug d.queries d.layout
      (validateQueryIdsUnique_spec h3) (validateQueryRefs_spec h1)
  refine ⟨count_nodes_dashboard d, count_nodes_chart d, count_nodes_query d,
    count_edges_contains d, hperm, ?_⟩
  intro item hitem
  have hnd : (d.layout.map (execEdge d.metadata.slug)).Nodup :=
    execEdge_map_nodup _ _ (validateChartIdsUnique_spec h2)
  rw [hperm.count_eq]
  exact List.count_eq_one_of_mem hnd (List.mem_map_of_mem _ hitem)

/-- The spec's "revenue-dashboard" scenario: two queries and three chart
items referencing them. -/
def revenueDash : DashboardYAML :=
  { metadata := ⟨"revenue-dashboard", "Revenue Dashboard", "owner@example.com",
      "analytical"⟩
    queries :=
      [⟨"monthly_revenue", "bigquery",
        "SELECT month, revenue FROM proj.sales.monthly", none⟩,
       ⟨"top_products", "bigquery",
        "SELECT product, total FROM proj.sales.products", none⟩]
    layout :=
      [⟨"chart_1", "line_chart", "Monthly Revenue", "\x7b\x7d", "monthly_revenue",
        ⟨0, 0, 6, 4⟩⟩,
       ⟨"chart_2", "bar_chart", "Top Products", "\x7b\x7d", "top_products",
        ⟨6, 0, 6, 4⟩⟩,
       ⟨"chart_3", "kpi", "Revenue KPI", "\x7b\x7d", "monthly_revenue",
        ⟨0, 4, 6, 2⟩⟩] }

/-- Witness for C4 on the concrete "revenue-dashboard" definition (2
queries, 3 layout items). -/
theorem c4_lineage_counts_witness :
    ((buildLineageSeeds revenueDash).1).countP (isNodeType .dashboard) = 1 ∧
    ((buildLineageSeeds revenueDash).1).countP (isNodeType .chart) =
      revenueDash.layout.length ∧
    ((buildLineageSeeds revenueDash).1).countP (isNodeType .query) =
      revenueDash.queries.length ∧
    ((buildLineageSeeds revenueDash).2).countP (isEdgeType .contains) =
      revenueDash.layout.length ∧
    (((buildLineageSeeds revenueDash).2).filter (isEdgeType .executes)).Perm
      (revenueDash.layout.map (execEdge revenueDash.metadata.slug)) ∧
    ∀ item ∈ revenueDash.layout,
      (((buildLineageSeeds revenueDash).2).filter (isEdgeType .executes)).count
        (execEdge revenueDash.metadata.slug item) = 1 :=
  c4_lineage_counts revenueDash (by decide)

/-! ## Cache Layer (`InMemoryCache` and `RedisCache`,
src/apps/api/src/core/cache.py) -/

/-- One in-memory cache binding: key, stored value, absolute expiry.  The
`OrderedDict` order is the list order; the front is the least-recently-used
end (`popitem(last=False)` removes it), the back the most recent. -/
structure CacheEntry (α : Type) where
  key : String
  value : α
  expiry : Nat
deriving DecidableEq, Repr

/-- `InMemoryCache` state (cache.py lines 58-75). -/
structure InMemoryCache (α : Type) where
  maxSize : Nat
  defaultTtl : Nat
  entries : List (CacheEntry α)
deriving DecidableEq, Repr

/-- Python's `ttl or self.default_ttl` (cache.py line 120): `None` and `0`
both fall back to the default. -/
def effTtl (ttl : Option Nat) (defaultTtl : Nat) : Nat :=
  match ttl with
  | some t => if t = 0 then defaultTtl else t
  | none => defaultTtl

/-- `InMemoryCache._evict_expired` (cache.py lines 81-88): drop every entry
whose expiry lies strictly in the past, keeping order. -/
def evictExpired {α : Type} (now : Nat) (st : InMemoryCache α) : InMemoryCache α :=
  { st with entries := st.entries.filter fun e => !(decide (now > e.expiry)) }

/-- `InMemoryCache._evict_lru` (cache.py lines 90-93): when at or above
capacity, remove the entry at the least-recently-used end.  (CPython's
`popitem` would raise on an empty dict, which is reachable only with
`max_size = 0`; the claims assume a positive capacity.) -/
def evictLru {α : Type} (st : InMemoryCache α) : InMemoryCache α :=
  if st.entries.length ≥ st.maxSize then { st with entries := st.entries.tail }
  else st

/-- `InMemoryCache.get` (cache.py lines 95-113): purge expired entries,
look the key up, drop it if (already) expired, otherwise mark it most
recently used and return its value. -/
def cacheGet {α : Type} (k : String) (now : Nat) (st : InMemoryCache α) :
    Option α × InMemoryCache α :=
  let st1 := evictExpired now st
  match st1.entries.find? (fun e => e.key == k) with
  | none => (none, st1)
  | some e =>
    if now > e.expiry then
      (none, { st1 with entries := st1.entries.filter fun x => !(x.key == k) })
    else
      (some e.value,
       { st1 with entries := (st1.entries.filter fun x => !(x.key == k)) ++ [e] })

/-- `InMemoryCache.set` (cache.py lines 115-129): purge expired entries,
evict the LRU entry if at capacity, then bind the key at the
most-recently-used end with expiry `now + ttl_seconds`. -/
def cacheSet {α : Type} (k : String) (v : α) (ttl : Option Nat) (now : Nat)
    (st : InMemoryCache α) : InMemoryCache α :=
  let st1 := evictExpired now st
  let st2 := evictLru st1
  let expiry := now + effTtl ttl st.defaultTtl
  { st2 with entries := (st2.entries.filter fun x => !(x.key == k)) ++ [⟨k, v, expiry⟩] }

/-- `InMemoryCache.delete` (cache.py lines 131-137). -/
def cacheDelete {α : Type} (k : String) (st : InMemoryCache α) :
    Bool × InMemoryCache α :=
  if st.entries.any (fun e => e.key == k) then
    (true, { st with entries := st.entries.filter fun x => !(x.key == k) })
  else (false, st)

/-- `InMemoryCache.invalidate_pattern` (cache.py lines 144-158): delete
every key containing the pattern as a substring; return the count. -/
def cacheInvalidatePattern {α : Type} (pattern : String) (st : InMemoryCache α) :
    Nat × InMemoryCache α :=
  let doomed := st.entries.filter fun e => hasSub pattern.toList e.key.toList
  (doomed.length,
   { st with entries := st.entries.filter fun e => !(hasSub pattern.toList e.key.toList) })

/-- `InMemoryCache.clear` (cache.py lines 160-164). -/
def cacheClear {α : Type} (st : InMemoryCache α) : InMemoryCache α :=
  { st with entries := [] }

/-- The public operations of the in-memory cache. -/
inductive CacheOp (α : Type) where
  | get (k : String) (now : Nat)
  | set (k : String) (v : α) (ttl : Option Nat) (now : Nat)
  | delete (k : String)
  | invalidatePattern (p : String)
  | clear

/-- State transition of one cache operation. -/
def applyOp {α : Type} : CacheOp α → InMemoryCache α → InMemoryCache α
  | .get k now, st => (cacheGet k now st).2
  | .set k v ttl now, st => cacheSet k v ttl now st
  | .delete k, st => (cacheDelete k st).2
  | .invalidatePattern p, st => (cacheInvalidatePattern p st).2
  | .clear, st => cacheClear st

/-- Modelled from the spec: the shared remote store behind `RedisCache`
(cache.py lines 177-318) — an unbounded key-value server where
`SETEX key ttl value` binds the key for `ttl` seconds and `GET` returns the
value while it is live and nil after the TTL elapses (§4.4's "shared remote
cache").  The JSON round trip (`json.dumps` on set, `json.loads` on get)
performed by `RedisCache` is the identity on the JSON-representable value
domain, and the healthy (non-error) path is modelled. -/
structure RedisCacheState (α : Type) where
  defaultTtl : Nat
  store : List (String × α × Nat)
deriving DecidableEq, Repr

/-- `RedisCache.set` (cache.py lines 232-245): `SETEX` with
`ttl or self.default_ttl` seconds. -/
def redisSet {α : Type} (k : String) (v : α) (ttl : Option Nat) (now : Nat)
    (rc : RedisCacheState α) : RedisCacheState α :=
  { rc with store := (rc.store.filter fun e => !(e.1 == k)) ++
      [(k, v, now + effTtl ttl rc.defaultTtl)] }

/-- `RedisCache.get` (cache.py lines 217-230): nil for an absent or expired
key, the deserialized value otherwise. -/
def redisGet {α : Type} (k : String) (now : Nat) (rc : RedisCacheState α) :
    Option α :=
  match rc.store.find? (fun e => e.1 == k) with
  | none => none
  | some e => if now > e.2.2 then none else some e.2.1

/-! ### C5: get after set, within and after the TTL -/

/-- Value returned by `get` on a state whose entries are a key-free prefix
followed by a single binding of the key. -/
theorem cacheGet_fst_of_partition {α : Type} (k : String) (t1 : Nat)
    (S : InMemoryCache α) (pre : List (CacheEntry α)) (e : CacheEntry α)
    (hS : S.entries = pre ++ [e])
    (hkeys : ∀ x ∈ pre, (x.key == k) = false) (hek : (e.key == k) = true) :
    (cacheGet k t1 S).1 = if t1 > e.expiry then none else some e.value := by
  unfold cacheGet evictExpired
  rw [hS, List.filter_append]
  dsimp only
  have hnone : ((pre.filter fun e => !(decide (t1 > e.expiry))).find?
      (fun e => e.key == k)) = none := by
    rw [List.find?_eq_none]
    intro x hx
    simp [hkeys x (List.mem_filter.mp hx).1]
  by_cases hexp : t1 > e.expiry
  · rw [if_pos hexp]
    have hone : ([e].filter fun e => !(decide (t1 > e.expiry))) = [] := by
      simp [hexp]
    rw [hone, List.append_nil, hnone]
  · rw [if_neg hexp]
    have hone : ([e].filter fun e => !(decide (t1 > e.expiry))) = [e] := by
      simp [hexp]
    rw [hone, List.find?_append, hnone, Option.none_or]
    have hfe : List.find? (fun x => x.key == k) [e] = some e := by
      simp [List.find?_cons, hek]
    rw [hfe]
    dsimp only
    rw [if_neg hexp]

theorem cacheGet_after_set {α : Type} (st : InMemoryCache α) (k : String)
    (v : α) (ttl : Option Nat) (t0 t1 : Nat) :
    (cacheGet k t1 (cacheSet k v ttl t0 st)).1 =
      if t1 > t0 + effTtl ttl st.defaultTtl then none else some v := by
  have hset : (cacheSet k v ttl t0 st).entries =
      ((evictLru (evictExpired t0 st)).entries.filter fun x => !(x.key == k)) ++
        [⟨k, v, t0 + effTtl ttl st.defaultTtl⟩] := rfl
  have hpre : ∀ x ∈ (evictLru (evictExpired t0 st)).entries.filter
      (fun x => !(x.key == k)), (x.key == k) = false := by
    intro x hx
    simpa using (List.mem_filter.mp hx).2
  exact cacheGet_fst_of_partition k t1 _ _ _ hset hpre (by simp)

theorem redisGet_after_set {α : Type} (rc : RedisCacheState α) (k : String)
    (v : α) (ttl : Option Nat) (t0 t1 : Nat) :
    redisGet k t1 (redisSet k v ttl t0 rc) =
      if t1 > t0 + effTtl ttl rc.defaultTtl then none else some v := by
  have hset : (redisSet k v ttl t0 rc).store =
      (rc.store.filter fun e => !(e.1 == k)) ++
        [(k, v, t0 + effTtl ttl rc.defaultTtl)] := rfl
  unfold redisGet
  rw [hset, List.find?_append]
  have hnone : ((rc.store.filter fun e => !(e.1 == k))).find?
      (fun e => e.1 == k) = none := by
    rw [List.find?_eq_none]
    intro x hx
    simpa using (List.mem_filter.mp hx).2
  rw [hnone]
  by_cases hexp : t1 > t0 + effTtl ttl rc.defaultTtl
  · simp [hexp]
  · simp [hexp]

/-- C5: for both cache backends, a `get` performed after a `set` of the same
key returns exactly the value that was set while the TTL has not elapsed
(and the entry, being freshly re-bound, has not been evicted), and returns
absent once the TTL has elapsed. -/
theorem c5_get_after_set {α : Type} (st : InMemoryCache α)
    (rc : RedisCacheState α) (k : String) (v : α) (ttl : Option Nat)
    (t0 t1 : Nat) :
    (t1 ≤ t0 + effTtl ttl st.defaultTtl →
      (cacheGet k t1 (cacheSet k v ttl t0 st)).1 = some v) ∧
    (t1 > t0 + effTtl ttl st.defaultTtl →
      (cacheGet k t1 (cacheSet k v ttl t0 st)).1 = none) ∧
    (t1 ≤ t0 + effTtl ttl rc.defaultTtl →
      redisGet k t1 (redisSet k v ttl t0 rc) = some v) ∧
    (t1 > t0 + effTtl ttl rc.defaultTtl →
      redisGet k t1 (redisSet k v ttl t0 rc) = none) := by
  refine ⟨?_, ?_, ?_, ?_⟩
  · intro h
    rw [cacheGet_after_set, if_neg (by omega)]
  · intro h
    rw [cacheGet_after_set, if_pos h]
  · intro h
    rw [redisGet_after_set, if_neg (by omega)]
  · intro h
    rw [redisGet_after_set, if_pos h]

/-- Witness for C5 on both backends with the versioned dashboard key, TTL
300 at `t0 = 100`: a get at `t = 350` (within TTL) returns the payload, a
get at `t = 401` (after the TTL elapsed) returns absent. -/
theorem c5_get_after_set_witness :
    (cacheGet "dashboard:revenue-dashboard:data:v1" 350
      (cacheSet "dashboard:revenue-dashboard:data:v1" "payload" (some 300) 100
        (⟨1000, 86400, []⟩ : InMemoryCache String))).1 = some "payload" ∧
    (cacheGet "dashboard:revenue-dashboard:data:v1" 401
      (cacheSet "dashboard:revenue-dashboard:data:v1" "payload" (some 300) 100
        (⟨1000, 86400, []⟩ : InMemoryCache String))).1 = none ∧
    redisGet "dashboard:revenue-dashboard:data:v1" 350
      (redisSet "dashboard:revenue-dashboard:data:v1" "payload" (some 300) 100
        (⟨86400, []⟩ : RedisCacheState String)) = some "payload" ∧
    redisGet "dashboard:revenue-dashboard:data:v1" 401
      (redisSet "dashboard:revenue-dashboard:data:v1" "payload" (some 300) 100
        (⟨86400, []⟩ : RedisCacheState String)) = none :=
  ⟨(c5_get_after_set ⟨1000, 86400, []⟩ ⟨86400, []⟩ _ "payload" (some 300)
      100 350).1 (by decide),
   (c5_get_after_set ⟨1000, 86400, []⟩ ⟨86400, []⟩ _ "payload" (some 300)
      100 401).2.1 (by decide),
   (c5_get_after_set ⟨1000, 86400, []⟩ ⟨86400, []⟩ _ "payload" (some 300)
      100 350).2.2.1 (by decide),
   (c5_get_after_set ⟨1000, 86400, []⟩ ⟨86400, []⟩ _ "payload" (some 300)
      100 401).2.2.2 (by decide)⟩

/-! ### C10: capacity invariant and at-capacity eviction -/

theorem length_filter_not_lt {α : Type} {l : List α} {p : α → Bool}
    {e : α} (he : e ∈ l) (hpe : p e = true) :
    (l.filter fun x => !(p x)).length < l.length := by
  have hsum := List.length_eq_length_filter_add (l := l) p
  have hmem : e ∈ l.filter p := List.mem_filter.mpr ⟨he, hpe⟩
  have hpos : 0 < (l.filter p).length :=
    List.length_pos.mpr (List.ne_nil_of_mem hmem)
  omega

theorem cacheGet_snd_length_le {α : Type} (k : String) (now : Nat)
    (st : InMemoryCache α) :
    ((cacheGet k now st).2).entries.length ≤ st.entries.length := by
  unfold cacheGet evictExpired
  dsimp only
  cases hf : List.find? (fun e => e.key == k)
      (st.entries.filter fun e => !(decide (now > e.expiry))) with
  | none =>
    dsimp only
    exact List.length_filter_le _ _
  | some e =>
    dsimp only
    by_cases hexp : now > e.expiry
    · rw [if_pos hexp]
      dsimp only
      calc ((st.entries.filter fun e => !(decide (now > e.expiry))).filter
              fun x => !(x.key == k)).length
          ≤ (st.entries.filter fun e => !(decide (now > e.expiry))).length :=
            List.length_filter_le _ _
        _ ≤ st.entries.length := List.length_filter_le _ _
    · rw [if_neg hexp]
      dsimp only
      rw [List.length_append]
      have he := List.mem_of_find?_eq_some hf
      have hpe := List.find?_some hf
      have hlt : ((st.entries.filter fun e => !(decide (now > e.expiry))).filter
          fun x => !(x.key == k)).length <
          (st.entries.filter fun e => !(decide (now > e.expiry))).length :=
        length_filter_not_lt (p := fun e => e.key == k) he hpe
      have hle : (st.entries.filter fun e => !(decide (now > e.expiry))).length ≤
          st.entries.length := List.length_filter_le _ _
      simp only [List.length_cons, List.length_nil]
      omega

theorem cacheSet_length_le {α : Type} (k : String) (v : α) (ttl : Option Nat)
    (now : Nat) (st : InMemoryCache α) (hpos : 0 < st.maxSize)
    (hbound : st.entries.length ≤ st.maxSize) :
    (cacheSet k v ttl now st).entries.length ≤ st.maxSize := by
  have hset : (cacheSet k v ttl now st).entries =
      ((evictLru (evictExpired now st)).entries.filter fun x => !(x.key == k)) ++
        [⟨k, v, now + effTtl ttl st.defaultTtl⟩] := rfl
  rw [hset, List.length_append]
  have h1 : (evictExpired now st).entries.length ≤ st.entries.length :=
    List.length_filter_le _ _
  have hflt : ((evictLru (evictExpired now st)).entries.filter
      fun x => !(x.key == k)).length ≤
      (evictLru (evictExpired now st)).entries.length :=
    List.length_filter_le _ _
  have hlru : (evictLru (evictExpired now st)).entries.length ≤ st.maxSize - 1 ∨
      ((evictLru (evictExpired now st)).entries.length ≤ st.maxSize - 1 ∨
       (evictLru (evictExpired now st)).entries.length + 1 ≤ st.maxSize) := by
    unfold evictLru
    by_cases hc : (evictExpired now st).entries.length ≥ (evictExpired now st).maxSize
    · rw [if_pos hc]
      left
      dsimp only
      rw [List.length_tail]
      have : (evictExpired now st).maxSize = st.maxSize := rfl
      omega
    · rw [if_neg hc]
      right; right
      have : (evictExpired now st).maxSize = st.maxSize := rfl
      omega
  simp only [List.length_cons, List.length_nil]
  rcases hlru with h | h | h <;> omega

theorem cacheDelete_snd_length_le {α : Type} (k : String) (st : InMemoryCache α) :
    ((cacheDelete k st).2).entries.length ≤ st.entries.length := by
  unfold cacheDelete
  by_cases hc : st.entries.any (fun e => e.key == k)
  · rw [if_pos hc]
    exact List.length_filter_le _ _
  · rw [if_neg hc]

theorem cacheInvalidate_snd_length_le {α : Type} (p : String)
    (st : InMemoryCache α) :
    ((cacheInvalidatePattern p st).2).entries.length ≤ st.entries.length :=
  List.length_filter_le _ _

/-- C10: (a) after any cache operation a cache that respected its capacity
still holds at most `max_size` entries; (b) a `set` on a full, unexpired
cache first pops the least-recently-used (front) entry even when the key
being written already exists elsewhere: the unrelated front entry is gone,
the written key holds the new value at the most-recent end, and the cache
has shrunk to `max_size - 1` entries. -/
theorem c10_capacity_lru {α : Type} (st : InMemoryCache α) (op : CacheOp α)
    (k : String) (v : α) (ttl : Option Nat) (now : Nat)
    (e0 : CacheEntry α) (rest : List (CacheEntry α))
    (hpos : 0 < st.maxSize) (hbound : st.entries.length ≤ st.maxSize) :
    (applyOp op st).entries.length ≤ st.maxSize ∧
    (st.entries = e0 :: rest →
      (∀ e ∈ st.entries, ¬ now > e.expiry) →
      st.entries.length = st.maxSize →
      (st.entries.map CacheEntry.key).Nodup →
      e0.key ≠ k → k ∈ rest.map CacheEntry.key →
      e0.key ∉ ((cacheSet k v ttl now st).entries.map CacheEntry.key) ∧
      (cacheSet k v ttl now st).entries.find? (fun e => e.key == k) =
        some ⟨k, v, now + effTtl ttl st.defaultTtl⟩ ∧
      (cacheSet k v ttl now st).entries.length = st.maxSize - 1) := by
  constructor
  · cases op with
    | get k' now' =>
      exact le_trans (cacheGet_snd_length_le k' now' st) hbound
    | set k' v' ttl' now' =>
      exact cacheSet_length_le k' v' ttl' now' st hpos hbound
    | delete k' =>
      exact le_trans (cacheDelete_snd_length_le k' st) hbound
    | invalidatePattern p =>
      exact le_trans (cacheInvalidate_snd_length_le p st) hbound
    | clear =>
      show (0 : Nat) ≤ st.maxSize
      omega
  · intro hentries hfresh hfull hnodup hne hmem
    have hst1 : (evictExpired now st).entries = st.entries := by
      unfold evictExpired
      dsimp only
      refine List.filter_eq_self.mpr ?_
      intro e he
      simpa using hfresh e he
    have hlru : (evictLru (evictExpired now st)).entries = rest := by
      unfold evictLru
      rw [if_pos (by rw [hst1]; show st.entries.length ≥ st.maxSize; omega)]
      dsimp only
      rw [hst1, hentries]
      rfl
    have hset : (cacheSet k v ttl now st).entries =
        ((evictLru (evictExpired now st)).entries.filter fun x => !(x.key == k)) ++
          [⟨k, v, now + effTtl ttl st.defaultTtl⟩] := rfl
    rw [hset, hlru]
    have hkeyrest : e0.key ∉ rest.map CacheEntry.key := by
      rw [hentries, List.map_cons, List.nodup_cons] at hnodup
      exact hnodup.1
    refine ⟨?_, ?_, ?_⟩
    · rw [List.map_append]
      intro hin
      rcases List.mem_append.mp hin with hin | hin
      · obtain ⟨x, hx, hkx⟩ := List.mem_map.mp hin
        exact hkeyrest (hkx ▸ List.mem_map_of_mem _ (List.mem_filter.mp hx).1)
      · simp at hin
        exact hne hin
    · rw [List.find?_append]
      have hnone : (rest.filter fun x => !(x.key == k)).find?
          (fun e => e.key == k) = none := by
        rw [List.find?_eq_none]
        intro x hx
        simpa using (List.mem_filter.mp hx).2
      rw [hnone, Option.none_or]
      simp [List.find?_cons]
    · rw [List.length_append]
      have hcount : (rest.map CacheEntry.key).count k = 1 := by
        have hle : (rest.map CacheEntry.key).count k ≤ 1 := by
          have hnd : (rest.map CacheEntry.key).Nodup := by
            rw [hentries, List.map_cons, List.nodup_cons] at hnodup
            exact hnodup.2
          exact List.nodup_iff_count_le_one.mp hnd k
        have hge : 0 < (rest.map CacheEntry.key).count k :=
          List.count_pos_iff.mpr hmem
        omega
      have hcountP : rest.countP (fun e => e.key == k) = 1 := by
        have : (rest.map CacheEntry.key).count k =
            rest.countP (fun e => e.key == k) := by
          unfold List.count
          rw [List.countP_map]
          rfl
        omega
      have hsum := List.length_eq_length_filter_add
        (l := rest) (fun e => e.key == k)
      have hflen : (rest.filter fun e => e.key == k).length = 1 := by
        rw [← List.countP_eq_length_filter]
        exact hcountP
      have hlen : st.entries.length = rest.length + 1 := by
        rw [hentries]
        rfl
      simp only [List.length_cons, List.length_nil]
      omega

/-- Witness for C10: a fresh two-entry cache at capacity (`max_size = 2`);
part (a) at a `get`, part (b) at a `set` of the already-present key `"b"`,
which evicts the unrelated LRU entry `"a"`. -/
theorem c10_capacity_lru_witness :
    (applyOp (CacheOp.get "a" 5)
      (⟨2, 86400, [⟨"a", "x", 1000⟩, ⟨"b", "y", 1000⟩]⟩ :
        InMemoryCache String)).entries.length ≤ 2 ∧
    ("a" ∉ ((cacheSet "b" "z" (some 50) 5
        (⟨2, 86400, [⟨"a", "x", 1000⟩, ⟨"b", "y", 1000⟩]⟩ :
          InMemoryCache String)).entries.map CacheEntry.key) ∧
      (cacheSet "b" "z" (some 50) 5
        (⟨2, 86400, [⟨"a", "x", 1000⟩, ⟨"b", "y", 1000⟩]⟩ :
          InMemoryCache String)).entries.find? (fun e => e.key == "b") =
        some ⟨"b", "z", 5 + effTtl (some 50) 86400⟩ ∧
      (cacheSet "b" "z" (some 50) 5
        (⟨2, 86400, [⟨"a", "x", 1000⟩, ⟨"b", "y", 1000⟩]⟩ :
          InMemoryCache String)).entries.length = 2 - 1) :=
  ⟨(c10_capacity_lru ⟨2, 86400, [⟨"a", "x", 1000⟩, ⟨"b", "y", 1000⟩]⟩
      (CacheOp.get "a" 5) "b" "z" (some 50) 5 ⟨"a", "x", 1000⟩
      [⟨"b", "y", 1000⟩] (by decide) (by decide)).1,
   (c10_capacity_lru ⟨2, 86400, [⟨"a", "x", 1000⟩, ⟨"b", "y", 1000⟩]⟩
      (CacheOp.get "a" 5) "b" "z" (some 50) 5 ⟨"a", "x", 1000⟩
      [⟨"b", "y", 1000⟩] (by decide) (by decide)).2 rfl (by decide) (by decide)
      (by decide) (by decide) (by decide)⟩

/-! ## Guardrail Executor service (`SQLExecutorService`,
src/apps/api/src/services/sql_executor.py) and the `/sql/run` endpoint
(src/apps/api/src/api/v1/sql.py) -/

/-- A result row (`Dict[str, Any]`), values rendered opaquely. -/
abbrev Row := List (String × String)

/-- The engine-side outcome collected by
`BigQueryClient.execute_for_verification` (bigquery_client.py lines
346-377): job id, schema, row count, at most 100 sample rows, bytes
scanned/billed, cache-hit flag and duration.  The engine itself is an
external collaborator, so its outcome is a parameter. -/
structure EngineSuccess where
  jobId : String
  schema : List (String × String)
  rowCount : Nat
  sampleRows : List Row
  bytesScanned : Nat
  bytesBilled : Nat
  cacheHit : Bool
  durationMs : Nat
deriving DecidableEq, Repr

/-- `SQLVerificationResult` (yaml_schema.py lines 378-391). -/
structure SQLVerificationResult where
  valid : Bool
  jobId : Option String
  schema : List (String × String)
  rowCount : Nat
  sampleRows : List Row
  bytesScanned : Nat
  bytesBilled : Nat
  cacheHit : Bool
  durationMs : Nat
  error : Option String
deriving DecidableEq, Repr

/-- `SQLExecutorService.execute_for_verification` (sql_executor.py lines
50-152): run the client with guardrails; on success return the metadata
and sample rows with `valid=True`; on *any* exception (line 127 catches
`Exception` broadly) return `valid=False` with the stringified error —
nothing is re-raised. -/
def executeForVerification (allowed : List String) (sql : String)
    (engine : Except String EngineSuccess) : SQLVerificationResult :=
  match executeQuery allowed sql engine with
  | .ok r =>
    { valid := true, jobId := some r.jobId, schema := r.schema,
      rowCount := r.rowCount, sampleRows := r.sampleRows,
      bytesScanned := r.bytesScanned, bytesBilled := r.bytesBilled,
      cacheHit := r.cacheHit, durationMs := r.durationMs, error := none }
  | .error e =>
    { valid := false, jobId := none, schema := [], rowCount := 0,
      sampleRows := [], bytesScanned := 0, bytesBilled := 0,
      cacheHit := false, durationMs := 0, error := some e }

/-- The response envelopes the `/sql/run` endpoint can produce
(sql.py lines 85-143): a success envelope around the verification result,
or the typed error envelopes of its `except` handlers. -/
inductive RunSqlResponse where
  | success (result : SQLVerificationResult)
  | errorBytesLimit (message : String) (bytesAttempted maxAllowed : Option Nat)
  | errorBigQuery (message : String)
  | errorInternal (message : String)
deriving DecidableEq, Repr

/-- `run_sql` (sql.py lines 51-143): the endpoint body calls
`execute_for_verification` and wraps its result in a success envelope; the
`except BytesLimitExceededException` handler (lines 116-127) fires only if
the executor raises that exception — which `execute_for_verification`
never does, since it converts every failure into a `valid=False` result. -/
def runSql (allowed : List String) (sql : String)
    (engine : Except String EngineSuccess) : RunSqlResponse :=
  .success (executeForVerification allowed sql engine)

/-- C1 (code bug): a query whose engine execution aborts for exceeding the
byte cap — e.g. a 150,000,000-byte scan against the 100,000,000-byte cap,
which BigQuery aborts with the message below — does fail as a whole, but
the `/sql/run` surface is a *success envelope* with `valid=False` and the
raw message string: no `BytesLimitExceeded` error carrying the attempted
and allowed byte counts is ever produced, although
`execute_for_verification`'s own docstring promises to raise
`BytesLimitExceededException` and the endpoint carries a dead handler for
it. -/
theorem c1_bytes_limit_never_typed :
    runSql [] "SELECT revenue FROM proj.sales.monthly"
      (Except.error "Query exceeded limit for bytes billed: 100000000") =
      RunSqlResponse.success
        { valid := false, jobId := none, schema := [], rowCount := 0,
          sampleRows := [], bytesScanned := 0, bytesBilled := 0,
          cacheHit := false, durationMs := 0,
          error := some "Query exceeded limit for bytes billed: 100000000" } ∧
    ∀ (m : String) (ba ma : Option Nat),
      runSql [] "SELECT revenue FROM proj.sales.monthly"
        (Except.error "Query exceeded limit for bytes billed: 100000000") ≠
      RunSqlResponse.errorBytesLimit m ba ma := by
  constructor
  · decide
  · intro m ba ma h
    have heq : runSql [] "SELECT revenue FROM proj.sales.monthly"
        (Except.error "Query exceeded limit for bytes billed: 100000000") =
        RunSqlResponse.success
          { valid := false, jobId := none, schema := [], rowCount := 0,
            sampleRows := [], bytesScanned := 0, bytesBilled := 0,
            cacheHit := false, durationMs := 0,
            error := some "Query exceeded limit for bytes billed: 100000000" } := by
      decide
    rw [heq] at h
    cases h

/-! ## Serving and batch execution (C9) -/

/-- `SQLExecutorService.execute_for_serving` (sql_executor.py lines
154-227): return the full row set on success; on failure wrap and
*re-raise* as a `BigQueryException` whose message is
`"Query execution failed: …"` and which carries the query hash. -/
def executeForServing (sql : String) (engine : Except String (List Row)) :
    Except (String × String) (List Row) :=
  match engine with
  | .ok rows => .ok rows
  | .error e =>
    .error ("Query execution failed: " ++ e, String.mk (hashQuery sql))

/-- One entry of the `queries` argument of `execute_batch` (dicts with
`id`, `sql` and optional `max_bytes_billed`). -/
structure BatchQuery where
  id : String
  sql : String
  maxBytesBilled : Option Nat
deriving DecidableEq, Repr

/-- `SQLExecutorService.execute_batch` (sql_executor.py lines 229-290):
run every query through `execute_for_serving`
(`asyncio.gather(..., return_exceptions=True)` captures each failure), then
map each query id to its rows — or to an *empty list* when that query's
execution raised. -/
def executeBatch (engine : String → Except String (List Row))
    (queries : List BatchQuery) : List (String × List Row) :=
  queries.map fun q =>
    (q.id,
     match executeForServing q.sql (engine q.sql) with
     | .ok rows => rows
     | .error _ => [])

theorem lookup_map_fst {β : Type} (f : BatchQuery → β) :
    ∀ (qs : List BatchQuery) (q : BatchQuery), q ∈ qs →
      (qs.map BatchQuery.id).Nodup →
      (qs.map fun x => (x.id, f x)).lookup q.id = some (f q) := by
  intro qs
  induction qs with
  | nil =>
    intro q hq
    cases hq
  | cons a rest ih =>
    intro q hq hnodup
    rw [List.map_cons, List.nodup_cons] at hnodup
    rcases List.mem_cons.mp hq with rfl | hmem
    · rw [List.map_cons]
      exact List.lookup_cons_self
    · have hne : (q.id == a.id) = false := by
        refine beq_eq_false_iff_ne.mpr ?_
        intro hcontra
        exact hnodup.1 (hcontra ▸ List.mem_map_of_mem _ hmem)
      rw [List.map_cons]
      show List.lookup q.id ((a.id, f a) :: _) = some (f q)
      rw [List.lookup_cons]
      simp only [hne]
      exact ih q hmem hnodup.2

/-- C9: batch execution never fails the batch — a query whose execution
raises maps to an empty row list in the returned map and a successful
query maps to its full rows unchanged — while the single-query serving
path re-raises the failure (as a wrapped `BigQueryException`) to its
caller. -/
theorem c9_batch_isolates_failures
    (engine : String → Except String (List Row))
    (queries : List BatchQuery) (q : BatchQuery)
    (hq : q ∈ queries) (hnodup : (queries.map BatchQuery.id).Nodup) :
    (∀ e, engine q.sql = Except.error e →
      (executeBatch engine queries).lookup q.id = some []) ∧
    (∀ rows, engine q.sql = Except.ok rows →
      (executeBatch engine queries).lookup q.id = some rows) ∧
    (∀ e, engine q.sql = Except.error e →
      executeForServing q.sql (engine q.sql) =
        Except.error ("Query execution failed: " ++ e,
          String.mk (hashQuery q.sql))) := by
  have hbase := lookup_map_fst
    (fun x => match executeForServing x.sql (engine x.sql) with
      | .ok rows => rows
      | .error _ => []) queries q hq hnodup
  have hres : (executeBatch engine queries).lookup q.id =
      some (match executeForServing q.sql (engine q.sql) with
        | .ok rows => rows
        | .error _ => []) := hbase
  refine ⟨?_, ?_, ?_⟩
  · intro e he
    rw [hres, he]
    rfl
  · intro rows hrows
    rw [hres, hrows]
    rfl
  · intro e he
    rw [he]
    rfl

/-- Witness for C9: a two-query batch where `"SELECT bad"` fails on the
engine and `"SELECT good"` succeeds — the failing query maps to `[]`, the
successful one keeps its row, and the serving path re-raises. -/
theorem c9_batch_isolates_failures_witness :
    ((executeBatch
        (fun sql => if sql == "SELECT bad" then Except.error "boom"
          else Except.ok [[("a", "1")]])
        [⟨"q1", "SELECT good", none⟩, ⟨"q2", "SELECT bad", none⟩]).lookup
      "q2" = some []) ∧
    ((executeBatch
        (fun sql => if sql == "SELECT bad" then Except.error "boom"
          else Except.ok [[("a", "1")]])
        [⟨"q1", "SELECT good", none⟩, ⟨"q2", "SELECT bad", none⟩]).lookup
      "q1" = some [[("a", "1")]]) ∧
    executeForServing "SELECT bad"
      ((fun sql => if sql == "SELECT bad" then Except.error "boom"
          else Except.ok [[("a", "1")]]) "SELECT bad") =
      Except.error ("Query execution failed: " ++ "boom",
        String.mk (hashQuery "SELECT bad")) :=
  ⟨((c9_batch_isolates_failures
      (fun sql => if sql == "SELECT bad" then Except.error "boom"
        else Except.ok [[("a", "1")]])
      [⟨"q1", "SELECT good", none⟩, ⟨"q2", "SELECT bad", none⟩]
      ⟨"q2", "SELECT bad", none⟩ (by decide) (by decide)).1 "boom" rfl),
   ((c9_batch_isolates_failures
      (fun sql => if sql == "SELECT bad" then Except.error "boom"
        else Except.ok [[("a", "1")]])
      [⟨"q1", "SELECT good", none⟩, ⟨"q2", "SELECT bad", none⟩]
      ⟨"q1", "SELECT good", none⟩ (by decide) (by decide)).2.1
      [[("a", "1")]] rfl),
   ((c9_batch_isolates_failures
      (fun sql => if sql == "SELECT bad" then Except.error "boom"
        else Except.ok [[("a", "1")]])
      [⟨"q1", "SELECT good", none⟩, ⟨"q2", "SELECT bad", none⟩]
      ⟨"q2", "SELECT bad", none⟩ (by decide) (by decide)).2.2 "boom"
      rfl)⟩

/-! ## Lineage Graph Store (`LineageService`,
src/apps/api/src/services/lineage.py) -/

/-- A stored lineage node: its type and string node id (the database row's
discriminating columns; metadata does not influence the graph queries
below). -/
abbrev StoredNode := NodeType × String

/-- `LineageService.build_lineage_for_dashboard` (lineage.py lines 51-132)
restricted to nodes: the dashboard's prior lineage is cleared, then every
seed is inserted through `_create_or_update_node` (lineage.py lines
343-385), which updates in place when a node with the same
`(node_type, node_id)` already exists and appends otherwise. -/
def rebuildNodes (seeds : List NodeSeed) : List StoredNode :=
  seeds.foldl
    (fun acc s =>
      if acc.any (fun n => n.1 == s.nodeType && n.2 == s.nodeId) then acc
      else acc ++ [(s.nodeType, s.nodeId)])
    []

/-- `LineageService._get_dashboard_nodes` (lineage.py lines 418-448): if no
dashboard node bears the slug, return `[]`; otherwise return every node
whose `node_id` equals the slug or starts with `f"{slug}:"` (the SQL
`LIKE '{slug}:%'` pattern match the code uses instead of an edge
traversal). -/
def getDashboardNodes (slug : String) (store : List StoredNode) :
    List StoredNode :=
  if store.any (fun n => n.1 == NodeType.dashboard && n.2 == slug) then
    store.filter fun n =>
      n.2 == slug || (slug ++ ":").toList.isPrefixOf n.2.toList
  else []

/-- `LineageService.get_upstream_tables` (lineage.py lines 212-239): the
node ids of the table-typed nodes among the dashboard's nodes. -/
def getUpstreamTables (slug : String) (store : List StoredNode) :
    List String :=
  ((getDashboardNodes slug store).filter fun n => n.1 == NodeType.table).map
    Prod.snd

/-- C8 (code bug): after rebuilding the "revenue-dashboard" lineage from
the compiler's seeds, the store holds table nodes
`proj.sales.monthly` and `proj.sales.products` — exactly the targets of the
dashboard's `reads_from` edges — yet `upstream_tables` returns the empty
list: table node ids are raw `project.dataset.table` names, which never
match `_get_dashboard_nodes`'s `slug:%` prefix filter, so the table nodes
are invisible to the traversal. -/
theorem c8_upstream_tables_empty :
    getUpstreamTables "revenue-dashboard"
      (rebuildNodes (buildLineageSeeds revenueDash).1) = [] ∧
    ((rebuildNodes (buildLineageSeeds revenueDash).1).filter
      (fun n => n.1 == NodeType.table)).map Prod.snd =
      ["proj.sales.monthly", "proj.sales.products"] ∧
    (((buildLineageSeeds revenueDash).2).filter
      (isEdgeType .readsFrom)).map EdgeSeed.targetNodeId =
      ["proj.sales.monthly", "proj.sales.products"] := by
  refine ⟨?_, ?_, ?_⟩ <;> decide

end Bridge
